import Mathlib

/-!
# Shallow embedding of the sharded TF-IDF index engine (`src/index.rs`)

This file translates the data model and the operations of `IndexPool` /
`Index` / `Tags` from `src/index.rs` into executable Lean definitions and
proves properties of them.

Modelling conventions:
* Machine integers (`u64`, `usize`) are `Nat`; the pool counter wraps at
  `2 ^ 64` exactly where the source uses `AtomicU64::fetch_add/fetch_sub`.
* `f32`/`f64` similarity scores are modelled by `FVal`: either `nan` or a
  rational value; `partial_cmp` returns `none` iff a NaN is involved,
  mirroring IEEE comparison as used by the source.
* The execution is sequential and panic-free, so `RwLock`s are never
  poisoned; lock acquisition always succeeds and the poison-skip branches
  of the source are unreachable.
* File I/O is abstracted: a directory is a `DirState` value keyed by the
  numeric file stems, where `none` stands for a file that is missing,
  unreadable, or fails to deserialize; serialized sizes are supplied by
  oracle functions `vsize`/`msize` (deterministic run of
  `bincode::serialized_size`). Writing to disk always succeeds.
* The external crate `tf_idf_vectorizer` is modelled from the spec (§4.3):
  a document-id-keyed token-frequency table with `add_doc` / `del_doc` /
  `doc_num`; `update_idf` refreshes an internal cache that none of the
  verified claims observes, so it is the identity on the modelled state.
* The shared `Corpus` and the `index_dir` path string are not observed by
  any verified claim and are omitted from the modelled state.
-/

/-- Token frequency vector (`TokenFrequency` of the vectorizer crate):
a bag of (token id, count) pairs. -/
structure TokenFrequency where
  freqs : List (Nat × Nat)
deriving DecidableEq

/-- Modelled from the spec: the `TFIDFVectorizer<u16, usize>` of the external
crate, reduced to its document table keyed by document id (the IDF cache is
not observed by any claim). -/
structure Vectorizer where
  docs : List (Nat × TokenFrequency)
deriving DecidableEq

/-- `vectorizer.add_doc(doc_id, token_fq)`. -/
def Vectorizer.addDoc (v : Vectorizer) (id : Nat) (tf : TokenFrequency) : Vectorizer :=
  { docs := v.docs ++ [(id, tf)] }

/-- `vectorizer.del_doc(&doc_id)`. -/
def Vectorizer.delDoc (v : Vectorizer) (id : Nat) : Vectorizer :=
  { docs := v.docs.filter (fun p => p.1 ≠ id) }

/-- `vectorizer.doc_num()`. -/
def Vectorizer.docNum (v : Vectorizer) : Nat :=
  v.docs.length

/-- Lookup of the stored token frequencies of one document. -/
def Vectorizer.lookup (v : Vectorizer) (id : Nat) : Option TokenFrequency :=
  (v.docs.find? (fun p => p.1 == id)).map (fun p => p.2)

/-- A score produced by the similarity computation: an `f32` that is either
NaN or an ordinary (finite) value, modelled as a rational. -/
inductive FVal where
  | nan : FVal
  | fin (q : ℚ) : FVal
deriving DecidableEq

/-- `PartialOrd::partial_cmp` on scores: `none` iff a NaN is involved. -/
def FVal.partialCmp : FVal → FVal → Option Ordering
  | .fin a, .fin b => some (compare a b)
  | _, _ => none

/-- `Tags(u64)` from `src/index.rs`: a 64-bit tag mask. -/
structure Tags where
  mask : Nat
deriving DecidableEq

def Tags.WIKI : Nat := 1
def Tags.NEWS : Nat := 2
def Tags.SNS : Nat := 4
def Tags.BLOG : Nat := 8
def Tags.FORUM : Nat := 16
def Tags.SHOPPING : Nat := 32
def Tags.ACADEMIC : Nat := 64
def Tags.TOOLS : Nat := 128

/-- `Tags::is_filter_contains`: all bits of `tag` are set in `self`. -/
def Tags.is_filter_contains (s : Tags) (tag : Tags) : Bool :=
  (s.mask &&& tag.mask) == tag.mask

/-- `Tags::contains`: some bit of `tag` is set in `self`. -/
def Tags.contains (s : Tags) (tag : Tags) : Bool :=
  (s.mask &&& tag.mask) != 0

/-- `Tags::is_empty`. -/
def Tags.is_empty (s : Tags) : Bool :=
  s.mask == 0

/-- `Tags::tags`: the canonical tag-name list of the set bits. -/
def Tags.tags (s : Tags) : List String :=
  (if s.contains ⟨Tags.WIKI⟩ then ["WIKI"] else []) ++
  (if s.contains ⟨Tags.NEWS⟩ then ["NEWS"] else []) ++
  (if s.contains ⟨Tags.SNS⟩ then ["SNS"] else []) ++
  (if s.contains ⟨Tags.BLOG⟩ then ["BLOG"] else []) ++
  (if s.contains ⟨Tags.FORUM⟩ then ["FORUM"] else []) ++
  (if s.contains ⟨Tags.SHOPPING⟩ then ["SHOPPING"] else []) ++
  (if s.contains ⟨Tags.ACADEMIC⟩ then ["ACADEMIC"] else []) ++
  (if s.contains ⟨Tags.TOOLS⟩ then ["TOOLS"] else [])

/-- `IndexMeta` from `src/index.rs` (the `DateTime<Utc>` timestamp is an
integer instant, `points : f64` is modelled as a rational). -/
structure IndexMeta where
  id : Nat
  url : String
  title : String
  description : String
  favicon : Option String
  time : Int
  points : ℚ
  tags : Tags
deriving DecidableEq

/-- `ScoredEntry` from `src/collect.rs`: one similarity hit. -/
structure ScoredEntry where
  score : FVal
  key : Nat
  length : Nat
  index_id : Nat
deriving DecidableEq

/-- `ResEntry` from `src/collect.rs`: one hydrated search result. -/
structure ResEntry where
  url : String
  title : String
  favicon : Option String
  tags : List String
  descriptions : String
  score : FVal
  point : ℚ
  length : Nat
  id : Nat
  index_id : Nat
  time : Int
deriving DecidableEq

/-- One index shard (`Index` in `src/index.rs`). -/
structure Index where
  id : Nat
  vectorizer : Vectorizer
  meta : List IndexMeta
  update_count : Nat
  vectorizer_bin_size : Nat
  meta_bin_size : Nat
deriving DecidableEq

/-- `Index::new`. -/
def Index.mkNew (id : Nat) : Index :=
  { id := id
    vectorizer := { docs := [] }
    meta := []
    update_count := 0
    vectorizer_bin_size := 0
    meta_bin_size := 0 }

/-- `Index::with_vectorizer`. -/
def Index.with_vectorizer (id : Nat) (v : Vectorizer) (meta : List IndexMeta)
    (vsz msz : Nat) : Index :=
  { id := id
    vectorizer := v
    meta := meta
    update_count := 0
    vectorizer_bin_size := vsz
    meta_bin_size := msz }

/-- `Index::meta_from_url`: linear scan for the first record with this URL. -/
def Index.meta_from_url (meta : List IndexMeta) (url : String) : Option IndexMeta :=
  meta.find? (fun m => m.url == url)

/-- `Index::meta_from_id`: guard `id > len`, then scan the reversed sequence
after skipping `len - (id + 1)` elements (`saturating_sub` is `Nat`
subtraction). -/
def Index.meta_from_id (meta : List IndexMeta) (id : Nat) : Option IndexMeta :=
  if id > meta.length then none
  else (meta.reverse.drop (meta.length - (id + 1))).find? (fun m => m.id == id)

/-- Replace the first element satisfying `p` by its image under `f`
(the effect of writing through the mutable reference `find` returns). -/
def replaceFirst (p : IndexMeta → Bool) (f : IndexMeta → IndexMeta) :
    List IndexMeta → List IndexMeta
  | [] => []
  | a :: l => if p a then f a :: l else a :: replaceFirst p f l

/-- `Index::meta_from_id_mut` followed by a write `f` to the found record:
same reverse-skip search as `meta_from_id`, the found record is updated in
place; if nothing is found the sequence is unchanged. -/
def Index.meta_from_id_mut_apply (meta : List IndexMeta) (id : Nat)
    (f : IndexMeta → IndexMeta) : List IndexMeta :=
  if id > meta.length then meta
  else
    let skip := meta.length - (id + 1)
    (meta.reverse.take skip ++
      replaceFirst (fun m => m.id == id) f (meta.reverse.drop skip)).reverse

/-- `Index::generate_next_id`: `last.id + 1`, or `0` on an empty store. -/
def Index.generate_next_id (meta : List IndexMeta) : Nat :=
  match meta.getLast? with
  | some m => m.id + 1
  | none => 0

/-- The shard pool (`IndexPool`). The shared corpus and the directory path
are not observed by any verified claim; the counter is the `AtomicU64`. -/
structure IndexPool where
  indexes : List Index
  counter : Nat
deriving DecidableEq

def DEFAULT_INDEX_SHARD_NUM : Nat := 16
def CALCULATE_BIN_SIZE_INTERVAL : Nat := 20
def SAVE_FILE_INTERVAL : Nat := 100

/-- The `u64` modulus used by the wrapping atomic counter. -/
def U64MOD : Nat := 2 ^ 64

/-- `IndexPool::new`. -/
def IndexPool.mkNew : IndexPool :=
  { indexes := (List.range DEFAULT_INDEX_SHARD_NUM).map Index.mkNew
    counter := 0 }

/-- The comparator passed to `sort_by` in `IndexPool::sort_by_score`:
`b.score.partial_cmp(&a.score).unwrap_or(Ordering::Equal)`. -/
def cmpEntries (a b : ScoredEntry) : Ordering :=
  (FVal.partialCmp b.score a.score).getD Ordering.eq

/-- `a` may be placed before `b`: the comparator does not say `gt`. -/
def scoreLe (a b : ScoredEntry) : Bool :=
  cmpEntries a b != Ordering.gt

/-- One step of a stable insertion sort with `scoreLe` (ties keep the
earlier element first). -/
def insertScored (a : ScoredEntry) : List ScoredEntry → List ScoredEntry
  | [] => [a]
  | b :: l => if scoreLe a b then a :: b :: l else b :: insertScored a l

/-- `IndexPool::sort_by_score`: `slice::sort_by` is a stable sort with
comparator `cmpEntries`; it is modelled by a stable insertion sort (for a
comparator that is a total preorder every stable sort produces the same
sequence, and on a two-element input stability alone pins the result). The
preceding `par_iter_mut` pass assigns `h.score = h.score` and is the
identity. -/
def IndexPool.sort_by_score (results : List ScoredEntry) : List ScoredEntry :=
  results.foldr insertScored []

/-- The clamped pagination window `&results[start..end]` of
`IndexPool::generate_results` (empty when `start >= end` after clamping). -/
def windowOf (results : List ScoredEntry) (start stop : Nat) : List ScoredEntry :=
  if min start results.length ≥ min stop results.length then []
  else (results.drop (min start results.length)).take
    (min stop results.length - min start results.length)

/-- Construction of the pushed `ResEntry` in `IndexPool::generate_results`. -/
def mkResEntry (scored : ScoredEntry) (meta : IndexMeta) : ResEntry :=
  { url := meta.url
    title := meta.title
    favicon := meta.favicon
    tags := meta.tags.tags
    descriptions := meta.description
    score := scored.score
    point := meta.points
    length := scored.length
    id := scored.key
    index_id := scored.index_id
    time := meta.time }

/-- The loop body of `IndexPool::generate_results` for one scored entry:
each `continue` of the source is a `none` (locks are never poisoned in the
sequential model). -/
def IndexPool.hydrateEntry (pool : IndexPool) (tag : Tags) (tag_exclusive : Bool)
    (scored : ScoredEntry) : Option ResEntry :=
  match pool.indexes.get? scored.index_id with
  | none => none
  | some idx =>
    match Index.meta_from_id idx.meta scored.key with
    | none => none
    | some meta =>
      if !tag.is_empty then
        if tag_exclusive then
          if !(meta.tags.is_filter_contains tag) then none
          else some (mkResEntry scored meta)
        else
          if !(meta.tags.contains tag) then none
          else some (mkResEntry scored meta)
      else some (mkResEntry scored meta)

/-- `IndexPool::generate_results`: clamp the range, then run the loop body
over the window, keeping the passing entries in order. -/
def IndexPool.generate_results (pool : IndexPool) (results : List ScoredEntry)
    (start stop : Nat) (tag : Tags) (tag_exclusive : Bool) : List ResEntry :=
  (windowOf results start stop).filterMap (pool.hydrateEntry tag tag_exclusive)

/-- The routing scan of `IndexPool::add_document` (read-lock pass over the
shards in id order). State threaded through the loop: `shard_id`, `doc_id`
and `max_size` exactly as in the source; on a URL hit the loop breaks with
`is_new = false`; otherwise the source executes
`if max_size <= size { shard_id = idx.id; max_size = max_size; }`
(note: `max_size` is reassigned to itself, faithfully preserved here). -/
def IndexPool.routeScanAux (url : String) (shard_id doc_id max_size : Nat) :
    List Index → Bool × Nat × Nat
  | [] => (true, shard_id, doc_id)
  | idx :: rest =>
    match Index.meta_from_url idx.meta url with
    | some m => (false, idx.id, m.id)
    | none =>
      let size := max idx.meta_bin_size idx.vectorizer_bin_size
      if max_size ≤ size then
        IndexPool.routeScanAux url idx.id doc_id max_size rest
      else
        IndexPool.routeScanAux url shard_id doc_id max_size rest

/-- The complete routing scan: `(is_new, shard_id, doc_id)` with the
initial values `is_new = true`, `shard_id = 0`, `doc_id = 0`, `max_size = 0`. -/
def IndexPool.routeScan (shards : List Index) (url : String) : Bool × Nat × Nat :=
  IndexPool.routeScanAux url 0 0 0 shards

/-- Overwrite of the metadata fields in the update branch of
`IndexPool::add_document` (`id` is not assigned). -/
def overwriteFields (src : IndexMeta) (m : IndexMeta) : IndexMeta :=
  { m with
    url := src.url
    title := src.title
    favicon := src.favicon
    tags := src.tags
    description := src.description
    points := src.points
    time := src.time }

/-- Refresh of the cached bin sizes after a mutation: both the save branch
(file sizes of the bytes just written) and the recompute branch
(`bincode::serialized_size`) store the serialized sizes of the current
shard state, supplied by the oracles `vsize`/`msize`. -/
def applySizeRefresh (vsize : Vectorizer → Nat) (msize : List IndexMeta → Nat)
    (do_save do_calc : Bool) (idx : Index) : Index :=
  if do_save || do_calc then
    { idx with
      vectorizer_bin_size := vsize idx.vectorizer
      meta_bin_size := msize idx.meta }
  else idx

/-- Result of `IndexPool::add_document` together with the persistence
effects it performed: `did_save` is the `do_save` branch (shard written to
disk), `did_calc_only` the `else if do_calculate_size` branch. -/
structure AddOutcome where
  is_new : Bool
  pool : IndexPool
  did_save : Bool
  did_calc_only : Bool
deriving DecidableEq

/-- `IndexPool::add_document`. `none` models the `return None` on a failed
write-lock acquisition; in the sequential model this happens only when the
chosen `shard_id` is out of range (where the source would panic on
`self.indexes[shard_id]`), which cannot occur for well-formed pools.
`do_save`/`do_calculate_size` are read from `update_count` before the
`update_count += 1` of the mutation, exactly as in the source. -/
def IndexPool.add_document (vsize : Vectorizer → Nat) (msize : List IndexMeta → Nat)
    (pool : IndexPool) (token_fq : TokenFrequency) (meta0 : IndexMeta) :
    Option AddOutcome :=
  let url := meta0.url
  let scan := IndexPool.routeScan pool.indexes url
  let is_new := scan.1
  let shard_id := scan.2.1
  let doc_id := scan.2.2
  match pool.indexes.get? shard_id with
  | none => none
  | some idx =>
    if is_new then
      let new_id := Index.generate_next_id idx.meta
      let do_save := idx.update_count % SAVE_FILE_INTERVAL == 0
      let do_calc := idx.update_count % CALCULATE_BIN_SIZE_INTERVAL == 0
      let idx' : Index :=
        { idx with
          vectorizer := (idx.vectorizer.addDoc new_id token_fq)
          meta := idx.meta ++ [{ meta0 with id := new_id }]
          update_count := idx.update_count + 1 }
      let idx'' := applySizeRefresh vsize msize do_save do_calc idx'
      some
        { is_new := true
          pool :=
            { indexes := pool.indexes.set shard_id idx''
              counter := (pool.counter + 1) % U64MOD }
          did_save := do_save
          did_calc_only := !do_save && do_calc }
    else
      let do_save := idx.update_count % SAVE_FILE_INTERVAL == 0
      let do_calc := idx.update_count % CALCULATE_BIN_SIZE_INTERVAL == 0
      let idx' : Index :=
        { idx with
          vectorizer := (idx.vectorizer.delDoc doc_id).addDoc doc_id token_fq
          meta := Index.meta_from_id_mut_apply idx.meta doc_id (overwriteFields meta0)
          update_count := idx.update_count + 1 }
      let idx'' := applySizeRefresh vsize msize do_save do_calc idx'
      some
        { is_new := false
          pool :=
            { indexes := pool.indexes.set shard_id idx''
              counter := pool.counter }
          did_save := do_save
          did_calc_only := !do_save && do_calc }

/-- The URL scan of `IndexPool::del_document` (first shard in id order that
holds the URL, returning `(shard_id, doc_id)`). -/
def IndexPool.delScan : List Index → String → Option (Nat × Nat)
  | [], _ => none
  | idx :: rest, url =>
    match Index.meta_from_url idx.meta url with
    | some m => some (idx.id, m.id)
    | none => IndexPool.delScan rest url

/-- `IndexPool::del_document`: on a hit, remove the vectorizer entry,
refresh IDF, bump `update_count` and decrement the wrapping counter; the
metadata record is deliberately left in place (tombstone). -/
def IndexPool.del_document (pool : IndexPool) (url : String) : Bool × IndexPool :=
  match IndexPool.delScan pool.indexes url with
  | none => (false, pool)
  | some (shard_id, doc_id) =>
    match pool.indexes.get? shard_id with
    | none => (false, pool)
    | some idx =>
      let idx' : Index :=
        { idx with
          vectorizer := idx.vectorizer.delDoc doc_id
          update_count := idx.update_count + 1 }
      (true,
        { indexes := pool.indexes.set shard_id idx'
          counter := (pool.counter + (U64MOD - 1)) % U64MOD })

/-- The on-disk state seen by `IndexPool::load`, keyed by numeric file
stem. An entry is present iff the file exists, is readable and
deserializes; `corpus` plays the same role for `global.corpus` (its
contents are not observed). -/
structure DirState where
  corpus : Option Unit
  indexFiles : List (Nat × Vectorizer)
  metaFiles : List (Nat × List IndexMeta)

/-- `HashMap::remove(&i)` over the association list built from the files. -/
def lookupStem {α : Type} (files : List (Nat × α)) (i : Nat) : Option α :=
  (files.find? (fun p => p.1 == i)).map (fun p => p.2)

/-- The shard-building loop of `IndexPool::load`: for every shard id below
`n` both files must be present, otherwise the whole load fails. -/
def IndexPool.buildShards (vsize : Vectorizer → Nat) (msize : List IndexMeta → Nat)
    (dir : DirState) : Nat → Except String (List Index)
  | 0 => Except.ok []
  | n + 1 =>
    match IndexPool.buildShards vsize msize dir n with
    | Except.error e => Except.error e
    | Except.ok shards =>
      match lookupStem dir.indexFiles n, lookupStem dir.metaFiles n with
      | some v, some m =>
        Except.ok (shards ++ [Index.with_vectorizer n v m (vsize v) (msize m)])
      | none, _ => Except.error "Vectorizer not found"
      | some _, none => Except.error "Meta not found"

/-- `IndexPool::load`: require a corpus file, then all
`DEFAULT_INDEX_SHARD_NUM` shards; the counter is the sum of the shards'
document counts. -/
def IndexPool.load (vsize : Vectorizer → Nat) (msize : List IndexMeta → Nat)
    (dir : DirState) : Except String IndexPool :=
  match dir.corpus with
  | none => Except.error "No corpus file found"
  | some _ =>
    match IndexPool.buildShards vsize msize dir DEFAULT_INDEX_SHARD_NUM with
    | Except.error e => Except.error e
    | Except.ok shards =>
      Except.ok
        { indexes := shards
          counter := (shards.foldl (fun c s => c + s.vectorizer.docNum) 0) % U64MOD }

/-- `IndexPool::load_or_new`: fall back to a fresh empty pool when `load`
fails for any reason. -/
def IndexPool.load_or_new (vsize : Vectorizer → Nat) (msize : List IndexMeta → Nat)
    (dir : DirState) : IndexPool :=
  match IndexPool.load vsize msize dir with
  | Except.ok pool => pool
  | Except.error _ => IndexPool.mkNew

/-- Well-formed pool: the shard stored at position `i` has `id = i`
(the "id と対応を絶対強制" invariant of the source). -/
abbrev PoolWF (shards : List Index) : Prop :=
  shards.map (fun s => s.id) = List.range shards.length

/-- Canonically numbered metadata store: the record at position `p` has
`id = p`. This is the invariant the source maintains (records are appended
with `last.id + 1` and never removed). -/
abbrev MetaIdsCanonical (meta : List IndexMeta) : Prop :=
  meta.map (fun m => m.id) = List.range meta.length

/-- The `p ≤ id` half of the shard invariant as a decidable scan. -/
def idGePosFrom (p : Nat) : List IndexMeta → Bool
  | [] => true
  | m :: l => (p ≤ m.id) && idGePosFrom (p + 1) l

/-- Every record's id is at least its position. -/
def idGePos (meta : List IndexMeta) : Bool :=
  idGePosFrom 0 meta

/-- The tag-filter pass condition exactly as the claim states it: the
filter set is empty, or `tag_exclusive` and all filter bits are set in the
record, or not `tag_exclusive` and some filter bit is set in the record. -/
def claimTagPass (tag : Tags) (tag_exclusive : Bool) (recTags : Tags) : Bool :=
  (tag.mask == 0) ||
  (tag_exclusive && ((recTags.mask &&& tag.mask) == tag.mask)) ||
  (!tag_exclusive && ((recTags.mask &&& tag.mask) != 0))

/-- Metadata lookup of a scored entry through the pool: the shard named by
`index_id`, then `meta_from_id` on its store. -/
def IndexPool.metaLookup (pool : IndexPool) (scored : ScoredEntry) : Option IndexMeta :=
  match pool.indexes.get? scored.index_id with
  | none => none
  | some idx => Index.meta_from_id idx.meta scored.key

/-- Whether a scored entry is included according to the claim's wording:
its metadata is found and passes the tag filter. -/
def claimIncluded (pool : IndexPool) (tag : Tags) (tag_exclusive : Bool)
    (scored : ScoredEntry) : Bool :=
  match pool.metaLookup scored with
  | none => false
  | some m => claimTagPass tag tag_exclusive m.tags

/-- Sample metadata record used by concrete instances. -/
def sampleMeta (i : Nat) (u : String) : IndexMeta :=
  { id := i
    url := u
    title := "t"
    description := "d"
    favicon := none
    time := 0
    points := 0
    tags := ⟨0⟩ }

/-- Sample shard with prescribed cached bin sizes and metadata store. -/
def sampleShard (i vs ms : Nat) (meta : List IndexMeta) : Index :=
  { id := i
    vectorizer := { docs := [] }
    meta := meta
    update_count := 0
    vectorizer_bin_size := vs
    meta_bin_size := ms }

/-- Size oracle used by concrete instances. -/
def zeroVS : Vectorizer → Nat := fun _ => 0

/-- Size oracle used by concrete instances. -/
def zeroMS : List IndexMeta → Nat := fun _ => 0

def sampleTF : TokenFrequency := { freqs := [(1, 2)] }

/-- One shard holding a single document with URL "u". -/
def samplePoolOne : IndexPool :=
  { indexes := [sampleShard 0 0 0 [sampleMeta 0 "u"]], counter := 1 }

/-- Two empty shards whose cached sizes make shard 0 the largest. -/
def samplePoolTwoSizes : IndexPool :=
  { indexes := [sampleShard 0 5 5 [], sampleShard 1 3 3 []], counter := 0 }

/-- A fresh single-shard pool. -/
def samplePoolFresh : IndexPool :=
  { indexes := [Index.mkNew 0], counter := 0 }

def sampleNanEntry : ScoredEntry :=
  { score := FVal.nan, key := 0, length := 0, index_id := 0 }

def sampleFinEntry (q : ℚ) (k : Nat) : ScoredEntry :=
  { score := FVal.fin q, key := k, length := 0, index_id := 0 }

/-- A record whose id is strictly larger than the store length. -/
def sampleMetaTwo : IndexMeta := sampleMeta 2 "u"

/-- Replacement metadata for an update of URL "u". -/
def sampleMetaNew : IndexMeta :=
  { id := 99
    url := "u"
    title := "T2"
    description := "D2"
    favicon := some "f"
    time := 5
    points := 2
    tags := ⟨2⟩ }

/-- A directory with a corpus file but no shard files at all. -/
def sampleDirEmpty : DirState :=
  { corpus := some (), indexFiles := [], metaFiles := [] }

-- ===================================================================
-- Helper lemmas
-- ===================================================================

theorem map_eq_range_get {α : Type} (f : α → Nat) (l : List α)
    (hwf : l.map f = List.range l.length) (p : Nat) (x : α)
    (hx : l.get? p = some x) : f x = p := by
  have hlt : p < l.length := by
    rcases List.get?_eq_some.mp hx with ⟨h, _⟩
    exact h
  have h1 : (l.map f).get? p = (List.range l.length).get? p := by rw [hwf]
  rw [List.get?_eq_getElem?, List.get?_eq_getElem?] at h1
  rw [List.getElem?_map, List.getElem?_range hlt] at h1
  rw [List.get?_eq_getElem?] at hx
  rw [hx] at h1
  simpa using h1

theorem map_eq_range_mem {α : Type} (f : α → Nat) (l : List α)
    (hwf : l.map f = List.range l.length) (x : α) (hx : x ∈ l) :
    l.get? (f x) = some x := by
  rcases List.mem_iff_getElem.mp hx with ⟨p, hp, hgx⟩
  have hget : l.get? p = some x := by
    rw [List.get?_eq_getElem?]
    exact List.getElem?_eq_some_iff.mpr ⟨hp, hgx⟩
  have hfp := map_eq_range_get f l hwf p x hget
  rw [hfp]
  exact hget

theorem applySizeRefresh_meta (vz : Vectorizer → Nat) (mz : List IndexMeta → Nat)
    (a b : Bool) (idx : Index) : (applySizeRefresh vz mz a b idx).meta = idx.meta := by
  unfold applySizeRefresh
  split <;> rfl

theorem applySizeRefresh_vectorizer (vz : Vectorizer → Nat) (mz : List IndexMeta → Nat)
    (a b : Bool) (idx : Index) :
    (applySizeRefresh vz mz a b idx).vectorizer = idx.vectorizer := by
  unfold applySizeRefresh
  split <;> rfl

theorem applySizeRefresh_update_count (vz : Vectorizer → Nat) (mz : List IndexMeta → Nat)
    (a b : Bool) (idx : Index) :
    (applySizeRefresh vz mz a b idx).update_count = idx.update_count := by
  unfold applySizeRefresh
  split <;> rfl

theorem applySizeRefresh_id (vz : Vectorizer → Nat) (mz : List IndexMeta → Nat)
    (a b : Bool) (idx : Index) : (applySizeRefresh vz mz a b idx).id = idx.id := by
  unfold applySizeRefresh
  split <;> rfl

theorem get?_set_self_of_get? {α : Type} (l : List α) (i : Nat) (a b : α)
    (h : l.get? i = some a) : (l.set i b).get? i = some b := by
  have hlt : i < l.length := by
    rcases List.get?_eq_some.mp h with ⟨hh, _⟩
    exact hh
  rw [List.get?_eq_getElem?]
  exact List.getElem?_set_self hlt

theorem set_of_get?_eq {α : Type} (l : List α) (i : Nat) (a : α)
    (h : l.get? i = some a) : l.set i a = l := by
  induction l generalizing i with
  | nil => simp at h
  | cons x xs ih =>
    cases i with
    | zero =>
      simp at h
      simp [List.set, h]
    | succ n =>
      simp at h
      have := ih n (by rw [List.get?_eq_getElem?]; exact h)
      simp [List.set, this]

theorem pairwise_id_pos_le (l : List IndexMeta)
    (hpair : l.Pairwise (fun a b => a.id < b.id)) :
    ∀ p (h : p < l.length), p ≤ (l.get ⟨p, h⟩).id := by
  have hge := List.pairwise_iff_getElem.mp hpair
  intro p
  induction p with
  | zero => intro h; exact Nat.zero_le _
  | succ n ih =>
    intro h
    have hn : n < l.length := Nat.lt_of_succ_lt h
    have h1 := ih hn
    have h2 := hge n (n + 1) hn h (Nat.lt_succ_self n)
    simp only [List.get_eq_getElem] at h1 h2 ⊢
    omega

theorem pairwise_id_unique (l : List IndexMeta)
    (hpair : l.Pairwise (fun a b => a.id < b.id)) (m x : IndexMeta)
    (hm : m ∈ l) (hx : x ∈ l) (hid : x.id = m.id) : x = m := by
  have hge := List.pairwise_iff_getElem.mp hpair
  rcases List.mem_iff_getElem.mp hm with ⟨i, hi, hmi⟩
  rcases List.mem_iff_getElem.mp hx with ⟨j, hj, hxj⟩
  rcases Nat.lt_trichotomy i j with hlt | heq | hgt
  · have := hge i j hi hj hlt
    rw [hmi, hxj] at this
    omega
  · subst heq
    rw [← hmi, ← hxj]
  · have := hge j i hj hi hgt
    rw [hmi, hxj] at this
    omega

theorem meta_from_id_complete (l : List IndexMeta) (k : Nat)
    (hpair : l.Pairwise (fun a b => a.id < b.id)) (m : IndexMeta)
    (hm : m ∈ l) (hid : m.id = k) (hk : k ≤ l.length) :
    Index.meta_from_id l k = some m := by
  unfold Index.meta_from_id
  rw [if_neg (by omega)]
  have hdrop : l.reverse.drop (l.length - (k + 1)) =
      (l.take (min (k + 1) l.length)).reverse := by
    rw [List.drop_reverse]
    have harith : l.length - (l.length - (k + 1)) = min (k + 1) l.length := by omega
    rw [harith]
  rw [hdrop]
  -- the record lives inside the searched prefix
  rcases List.mem_iff_getElem.mp hm with ⟨p, hp, hmp⟩
  have hple : p ≤ m.id := by
    have := pairwise_id_pos_le l hpair p hp
    simpa [hmp] using this
  have hptake : p < min (k + 1) l.length := by omega
  have hmem : m ∈ l.take (min (k + 1) l.length) := by
    apply List.mem_iff_getElem.mpr
    refine ⟨p, ?_, ?_⟩
    · simpa [List.length_take] using hptake
    · simpa using hmp
  have hmemrev : m ∈ (l.take (min (k + 1) l.length)).reverse :=
    List.mem_reverse.mpr hmem
  have hsome : (((l.take (min (k + 1) l.length)).reverse).find?
      (fun x => x.id == k)).isSome := by
    apply List.find?_isSome.mpr
    exact ⟨m, hmemrev, by simp [hid]⟩
  rcases Option.isSome_iff_exists.mp hsome with ⟨x, hxfind⟩
  have hxpred := List.find?_some hxfind
  have hxmem : x ∈ l :=
    List.mem_of_mem_take (List.mem_reverse.mp (List.mem_of_find?_eq_some hxfind))
  have hxid : x.id = k := by simpa using hxpred
  have hxm : x = m := pairwise_id_unique l hpair m x hm hxmem (by omega)
  rw [hxfind, hxm]

theorem meta_from_id_absent (l : List IndexMeta) (k : Nat)
    (habs : ∀ m ∈ l, m.id ≠ k) : Index.meta_from_id l k = none := by
  unfold Index.meta_from_id
  split
  · rfl
  · apply List.find?_eq_none.mpr
    intro x hx
    have hxl : x ∈ l := List.mem_reverse.mp (List.mem_of_mem_drop hx)
    simpa using habs x hxl

theorem meta_from_id_over_len (l : List IndexMeta) (k : Nat)
    (hk : l.length < k) : Index.meta_from_id l k = none := by
  unfold Index.meta_from_id
  rw [if_pos hk]

theorem canonical_get_id (l : List IndexMeta) (hc : MetaIdsCanonical l)
    (p : Nat) (m : IndexMeta) (h : l.get? p = some m) : m.id = p := by
  unfold MetaIdsCanonical at hc
  exact map_eq_range_get (fun m => m.id) l hc p m h

theorem canonical_mem_get (l : List IndexMeta) (hc : MetaIdsCanonical l)
    (m : IndexMeta) (hm : m ∈ l) : l.get? m.id = some m := by
  unfold MetaIdsCanonical at hc
  exact map_eq_range_mem (fun m => m.id) l hc m hm

theorem meta_from_id_mut_apply_set (l : List IndexMeta) (k : Nat)
    (f : IndexMeta → IndexMeta) (hc : MetaIdsCanonical l) (mk : IndexMeta)
    (hget : l.get? k = some mk) :
    Index.meta_from_id_mut_apply l k f = l.set k (f mk) := by
  have hk : k < l.length := by
    rcases List.get?_eq_some.mp hget with ⟨h, _⟩
    exact h
  have hkid : mk.id = k := canonical_get_id l hc k mk hget
  unfold Index.meta_from_id_mut_apply
  rw [if_neg (by omega)]
  have hdrop2 : l.reverse.drop (l.length - (k + 1)) = (l.take (k + 1)).reverse := by
    rw [List.drop_reverse]
    have harith : l.length - (l.length - (k + 1)) = k + 1 := by omega
    rw [harith]
  have htake2 : l.reverse.take (l.length - (k + 1)) = (l.drop (k + 1)).reverse := by
    rw [List.take_reverse]
    have harith : l.length - (l.length - (k + 1)) = k + 1 := by omega
    rw [harith]
  simp only [hdrop2, htake2]
  have hsucc : l.take (k + 1) = l.take k ++ [mk] := by
    rw [List.take_succ]
    rw [List.get?_eq_getElem?] at hget
    rw [hget]
    rfl
  have hsucc2 : (l.take k ++ [mk]).reverse = mk :: (l.take k).reverse := by
    rw [List.reverse_append]
    rfl
  rw [hsucc, hsucc2]
  have hrepl : replaceFirst (fun m => m.id == k) f (mk :: (l.take k).reverse) =
      f mk :: (l.take k).reverse := by
    unfold replaceFirst
    rw [if_pos (by simp [hkid])]
  rw [hrepl]
  rw [List.set_eq_take_cons_drop (f mk) hk]
  rw [List.reverse_append, List.reverse_cons, List.reverse_reverse, List.reverse_reverse]
  simp

theorem routeScanAux_fresh (url : String) (l : List Index)
    (hfresh : ∀ s ∈ l, Index.meta_from_url s.meta url = none) (hne : l ≠ [])
    (s0 d0 : Nat) :
    IndexPool.routeScanAux url s0 d0 0 l = (true, (l.getLast hne).id, d0) := by
  induction l generalizing s0 with
  | nil => exact absurd rfl hne
  | cons a rest ih =>
    unfold IndexPool.routeScanAux
    rw [hfresh a (List.mem_cons_self _ _)]
    rw [if_pos (Nat.zero_le _)]
    cases rest with
    | nil =>
      unfold IndexPool.routeScanAux
      rfl
    | cons b rest2 =>
      have hne2 : b :: rest2 ≠ [] := by simp
      have := ih (fun s hs => hfresh s (List.mem_cons_of_mem a hs)) hne2 a.id
      rw [this]
      rw [List.getLast_cons hne2]

theorem routeScanAux_found (url : String) (l : List Index)
    (s0 d0 m0 sid did : Nat)
    (h : IndexPool.routeScanAux url s0 d0 m0 l = (false, sid, did)) :
    ∃ idx m, idx ∈ l ∧ Index.meta_from_url idx.meta url = some m ∧
      idx.id = sid ∧ m.id = did := by
  induction l generalizing s0 d0 m0 with
  | nil =>
    unfold IndexPool.routeScanAux at h
    simp at h
  | cons a rest ih =>
    unfold IndexPool.routeScanAux at h
    cases hurl : Index.meta_from_url a.meta url with
    | some m =>
      rw [hurl] at h
      simp at h
      exact ⟨a, m, List.mem_cons_self _ _, hurl, h.1, h.2⟩
    | none =>
      rw [hurl] at h
      by_cases hsz : m0 ≤ max a.meta_bin_size a.vectorizer_bin_size
      · rw [if_pos hsz] at h
        rcases ih a.id d0 m0 h with ⟨idx, m, hmem, hfnd, hsid, hdid⟩
        exact ⟨idx, m, List.mem_cons_of_mem a hmem, hfnd, hsid, hdid⟩
      · rw [if_neg hsz] at h
        rcases ih s0 d0 m0 h with ⟨idx, m, hmem, hfnd, hsid, hdid⟩
        exact ⟨idx, m, List.mem_cons_of_mem a hmem, hfnd, hsid, hdid⟩

theorem delScan_found (l : List Index) (url : String) (sid did : Nat)
    (h : IndexPool.delScan l url = some (sid, did)) :
    ∃ idx m, idx ∈ l ∧ Index.meta_from_url idx.meta url = some m ∧
      idx.id = sid ∧ m.id = did := by
  induction l with
  | nil =>
    unfold IndexPool.delScan at h
    simp at h
  | cons a rest ih =>
    unfold IndexPool.delScan at h
    cases hurl : Index.meta_from_url a.meta url with
    | some m =>
      rw [hurl] at h
      simp at h
      exact ⟨a, m, List.mem_cons_self _ _, hurl, h.1, h.2⟩
    | none =>
      rw [hurl] at h
      rcases ih h with ⟨idx, m, hmem, hfnd, hsid, hdid⟩
      exact ⟨idx, m, List.mem_cons_of_mem a hmem, hfnd, hsid, hdid⟩

theorem delScan_congr (l₁ l₂ : List Index) (url : String)
    (h : l₁.map (fun s => (s.id, s.meta)) = l₂.map (fun s => (s.id, s.meta))) :
    IndexPool.delScan l₁ url = IndexPool.delScan l₂ url := by
  induction l₁ generalizing l₂ with
  | nil =>
    cases l₂ with
    | nil => rfl
    | cons b r2 => simp at h
  | cons a r1 ih =>
    cases l₂ with
    | nil => simp at h
    | cons b r2 =>
      simp only [List.map_cons, List.cons.injEq] at h
      have hid : a.id = b.id := by
        have := h.1
        simp at this
        exact this.1
      have hmeta : a.meta = b.meta := by
        have := h.1
        simp at this
        exact this.2
      unfold IndexPool.delScan
      rw [hmeta, hid]
      cases hurl : Index.meta_from_url b.meta url with
      | some m => rfl
      | none => exact ih r2 h.2

theorem vec_lookup_delDoc_self (v : Vectorizer) (i : Nat) :
    (v.delDoc i).lookup i = none := by
  unfold Vectorizer.delDoc Vectorizer.lookup
  have : (v.docs.filter (fun p => p.1 ≠ i)).find? (fun p => p.1 == i) = none := by
    apply List.find?_eq_none.mpr
    intro x hx
    have := List.of_mem_filter hx
    simp at this
    simp [this]
  rw [this]
  rfl

theorem vec_lookup_delDoc_addDoc_self (v : Vectorizer) (i : Nat) (tf : TokenFrequency) :
    ((v.delDoc i).addDoc i tf).lookup i = some tf := by
  unfold Vectorizer.addDoc Vectorizer.lookup
  rw [List.find?_append]
  have h1 : ((v.delDoc i).docs.find? (fun p => p.1 == i)) = none := by
    apply List.find?_eq_none.mpr
    intro x hx
    have := List.of_mem_filter hx
    simp at this
    simp [this]
  rw [h1]
  simp

theorem buildShards_missing (vz : Vectorizer → Nat) (mz : List IndexMeta → Nat)
    (dir : DirState) (n i : Nat) (hi : i < n)
    (hmiss : lookupStem dir.indexFiles i = none ∨ lookupStem dir.metaFiles i = none) :
    ∃ e, IndexPool.buildShards vz mz dir n = Except.error e := by
  induction n with
  | zero => omega
  | succ n ih =>
    by_cases hin : i < n
    · rcases ih hin with ⟨e, he⟩
      refine ⟨e, ?_⟩
      unfold IndexPool.buildShards
      rw [he]
    · have : i = n := by omega
      subst this
      unfold IndexPool.buildShards
      cases hb : IndexPool.buildShards vz mz dir i with
      | error e => exact ⟨e, rfl⟩
      | ok shards =>
        rcases hmiss with hmv | hmm
        · rw [hmv]
          exact ⟨"Vectorizer not found", rfl⟩
        · rw [hmm]
          cases hv : lookupStem dir.indexFiles i with
          | none => exact ⟨"Vectorizer not found", rfl⟩
          | some v => exact ⟨"Meta not found", rfl⟩

theorem buildShards_ok_length (vz : Vectorizer → Nat) (mz : List IndexMeta → Nat)
    (dir : DirState) (n : Nat) (shards : List Index)
    (h : IndexPool.buildShards vz mz dir n = Except.ok shards) :
    shards.length = n := by
  induction n generalizing shards with
  | zero =>
    unfold IndexPool.buildShards at h
    simp at h
    simp [← h]
  | succ n ih =>
    unfold IndexPool.buildShards at h
    cases hb : IndexPool.buildShards vz mz dir n with
    | error e => rw [hb] at h; simp at h
    | ok prev =>
      rw [hb] at h
      cases hv : lookupStem dir.indexFiles n with
      | none => rw [hv] at h; simp at h
      | some v =>
        rw [hv] at h
        cases hm : lookupStem dir.metaFiles n with
        | none => rw [hm] at h; simp at h
        | some m =>
          rw [hm] at h
          simp at h
          rw [← h]
          simp [ih prev hb]

theorem insertScored_perm (a : ScoredEntry) (l : List ScoredEntry) :
    (insertScored a l).Perm (a :: l) := by
  induction l with
  | nil => exact List.Perm.refl _
  | cons b t ih =>
    unfold insertScored
    by_cases h : scoreLe a b
    · rw [if_pos h]
    · rw [if_neg h]
      exact List.Perm.trans (List.Perm.cons b ih) (List.Perm.swap a b t)

theorem sort_by_score_perm (l : List ScoredEntry) :
    (IndexPool.sort_by_score l).Perm l := by
  induction l with
  | nil => exact List.Perm.refl _
  | cons a t ih =>
    have hstep : IndexPool.sort_by_score (a :: t) =
        insertScored a (IndexPool.sort_by_score t) := rfl
    rw [hstep]
    exact List.Perm.trans (insertScored_perm a _) (List.Perm.cons a ih)

theorem scoreLe_total_fin (a b : ScoredEntry) (ha : a.score ≠ FVal.nan)
    (hb : b.score ≠ FVal.nan) (h : scoreLe a b = false) : scoreLe b a = true := by
  cases hsa : a.score with
  | nan => exact absurd hsa ha
  | fin qa =>
    cases hsb : b.score with
    | nan => exact absurd hsb hb
    | fin qb =>
      unfold scoreLe cmpEntries FVal.partialCmp at h ⊢
      rw [hsa, hsb] at h ⊢
      simp only [Option.getD_some] at h ⊢
      have hgt : compare qb qa = Ordering.gt := by
        cases hq : compare qb qa with
        | lt => rw [hq] at h; exact absurd h (by decide)
        | eq => rw [hq] at h; exact absurd h (by decide)
        | gt => rfl
      have hlt : qa < qb := compare_gt_iff_gt.mp hgt
      have hcmp : compare qa qb = Ordering.lt := compare_lt_iff_lt.mpr hlt
      rw [hcmp]
      rfl

theorem scoreLe_trans_fin (a b c : ScoredEntry) (ha : a.score ≠ FVal.nan)
    (hb : b.score ≠ FVal.nan) (hc : c.score ≠ FVal.nan)
    (hab : scoreLe a b = true) (hbc : scoreLe b c = true) : scoreLe a c = true := by
  cases hsa : a.score with
  | nan => exact absurd hsa ha
  | fin qa =>
    cases hsb : b.score with
    | nan => exact absurd hsb hb
    | fin qc' =>
      cases hsc : c.score with
      | nan => exact absurd hsc hc
      | fin qcc =>
        unfold scoreLe cmpEntries FVal.partialCmp at hab hbc ⊢
        rw [hsa, hsb] at hab
        rw [hsb, hsc] at hbc
        rw [hsa, hsc]
        simp only [Option.getD_some] at hab hbc ⊢
        have h2 : ¬ qa < qc' := by
          intro hx
          rw [compare_gt_iff_gt.mpr hx] at hab
          exact absurd hab (by decide)
        have h3 : ¬ qc' < qcc := by
          intro hx
          rw [compare_gt_iff_gt.mpr hx] at hbc
          exact absurd hbc (by decide)
        have hle : qcc ≤ qa := le_trans (le_of_not_lt h3) (le_of_not_lt h2)
        cases hq : compare qcc qa with
        | lt => rfl
        | eq => rfl
        | gt =>
          have h1 : qa < qcc := compare_gt_iff_gt.mp hq
          exact absurd h1 (not_lt_of_ge hle)

theorem insertScored_pairwise (a : ScoredEntry) (l : List ScoredEntry)
    (hfa : a.score ≠ FVal.nan) (hfl : ∀ e ∈ l, e.score ≠ FVal.nan)
    (hp : l.Pairwise (fun x y => scoreLe x y = true)) :
    (insertScored a l).Pairwise (fun x y => scoreLe x y = true) := by
  induction l with
  | nil => simp [insertScored]
  | cons b t ih =>
    have hfb : b.score ≠ FVal.nan := hfl b (List.mem_cons_self _ _)
    have hft : ∀ e ∈ t, e.score ≠ FVal.nan :=
      fun e he => hfl e (List.mem_cons_of_mem b he)
    rcases List.pairwise_cons.mp hp with ⟨hhead, htail⟩
    unfold insertScored
    by_cases h : scoreLe a b
    · rw [if_pos h]
      apply List.pairwise_cons.mpr
      constructor
      · intro x hx
        rcases List.mem_cons.mp hx with hxb | hxt
        · subst hxb; exact h
        · exact scoreLe_trans_fin a b x hfa hfb (hft x hxt) h (hhead x hxt)
      · exact hp
    · rw [if_neg h]
      apply List.pairwise_cons.mpr
      constructor
      · intro x hx
        have hmem : x ∈ a :: t := (insertScored_perm a t).mem_iff.mp hx
        rcases List.mem_cons.mp hmem with hxa | hxt
        · rw [hxa]
          exact scoreLe_total_fin a b hfa hfb (Bool.eq_false_iff.mpr h)
        · exact hhead x hxt
      · exact ih hft htail

theorem sort_by_score_sorted_of_no_nan (l : List ScoredEntry)
    (hfl : ∀ e ∈ l, e.score ≠ FVal.nan) :
    (IndexPool.sort_by_score l).Pairwise (fun x y => scoreLe x y = true) := by
  induction l with
  | nil => simp [IndexPool.sort_by_score]
  | cons a t ih =>
    have hstep : IndexPool.sort_by_score (a :: t) =
        insertScored a (IndexPool.sort_by_score t) := rfl
    rw [hstep]
    apply insertScored_pairwise
    · exact hfl a (List.mem_cons_self _ _)
    · intro e he
      have : e ∈ t := (sort_by_score_perm t).mem_iff.mp he
      exact hfl e (List.mem_cons_of_mem a this)
    · exact ih (fun e he => hfl e (List.mem_cons_of_mem a he))

theorem poolWF_get_id (l : List Index) (hwf : PoolWF l) (p : Nat) (s : Index)
    (h : l.get? p = some s) : s.id = p := by
  unfold PoolWF at hwf
  exact map_eq_range_get (fun s => s.id) l hwf p s h

theorem poolWF_mem_get (l : List Index) (hwf : PoolWF l) (s : Index) (hs : s ∈ l) :
    l.get? s.id = some s := by
  unfold PoolWF at hwf
  exact map_eq_range_mem (fun s => s.id) l hwf s hs

-- ===================================================================
-- Claim theorems
-- ===================================================================

/-- Claim C10: `generate_results` clamps `start` and `end` to the list
length; whenever the clamped start is at least the clamped end the result
is empty, and the number of returned entries never exceeds `end - start`
(tag filtering is applied after the window is selected). -/
theorem generate_results_window_clamp (pool : IndexPool) (results : List ScoredEntry)
    (start stop : Nat) (tag : Tags) (tag_exclusive : Bool) :
    (min start results.length ≥ min stop results.length →
      IndexPool.generate_results pool results start stop tag tag_exclusive = [])
    ∧ (IndexPool.generate_results pool results start stop tag tag_exclusive).length
        ≤ stop - start := by
  constructor
  · intro h
    unfold IndexPool.generate_results windowOf
    rw [if_pos h]
    rfl
  · unfold IndexPool.generate_results
    have hfm := List.length_filterMap_le (pool.hydrateEntry tag tag_exclusive)
      (windowOf results start stop)
    have hwin : (windowOf results start stop).length ≤ stop - start := by
      unfold windowOf
      split
      · simp
      · rename_i hcond
        simp only [List.length_take, List.length_drop]
        omega
    omega

/-- Claim C10 witness at a concrete reversed range. -/
theorem generate_results_window_clamp_witness :
    IndexPool.generate_results samplePoolOne [sampleNanEntry] 5 3 ⟨0⟩ false = [] :=
  (generate_results_window_clamp samplePoolOne [sampleNanEntry] 5 3 ⟨0⟩ false).1 (by decide)

/-- Claim C9: inside the clamped window, a scored entry is included in the
output of `generate_results` iff its metadata is found and passes the tag
filter: the filter is empty, or `tag_exclusive` and all filter bits are set
in the record, or not `tag_exclusive` and some filter bit is set. -/
theorem generate_results_tag_filter_semantics (pool : IndexPool)
    (results : List ScoredEntry) (start stop : Nat) (tag : Tags) (tag_exclusive : Bool) :
    IndexPool.generate_results pool results start stop tag tag_exclusive
      = (windowOf results start stop).filterMap (pool.hydrateEntry tag tag_exclusive)
    ∧ ∀ scored : ScoredEntry,
        (pool.hydrateEntry tag tag_exclusive scored).isSome
          = claimIncluded pool tag tag_exclusive scored := by
  refine ⟨rfl, ?_⟩
  intro scored
  unfold IndexPool.hydrateEntry claimIncluded IndexPool.metaLookup
  cases hidx : pool.indexes.get? scored.index_id with
  | none => simp
  | some idx =>
    cases hm : Index.meta_from_id idx.meta scored.key with
    | none => simp [hm]
    | some m =>
      unfold claimTagPass Tags.is_empty Tags.is_filter_contains Tags.contains
      cases h1 : (tag.mask == 0) <;> cases tag_exclusive <;>
        cases h2 : ((m.tags.mask &&& tag.mask) == tag.mask) <;>
        cases h3 : ((m.tags.mask &&& tag.mask) != 0) <;>
        simp [hm, h1, h2, h3]

/-- Claim C2 counterexample: on the input `[NaN, 1]` the stable sort keeps
the NaN-scored entry ahead of the finite-scored one, because the comparator
maps every NaN comparison to `Equal`; NaN entries do not sink to the end. -/
theorem sort_by_score_nan_first_cex :
    IndexPool.sort_by_score [sampleNanEntry, sampleFinEntry 1 1]
      = [sampleNanEntry, sampleFinEntry 1 1]
    ∧ sampleNanEntry.score = FVal.nan
    ∧ (sampleFinEntry 1 1).score = FVal.fin 1 := by
  refine ⟨rfl, rfl, rfl⟩

/-- Claim C2 (amended): `sort_by_score` permutes its input; when no score
is NaN the output is ordered by score descending (every adjacent-or-later
pair satisfies the comparator-based order `scoreLe`); entries with NaN
scores compare equal to everything under the comparator and therefore keep
their relative positions instead of sinking to the end. -/
theorem sort_by_score_perm_and_sorted_without_nan (l : List ScoredEntry) :
    (IndexPool.sort_by_score l).Perm l
    ∧ ((∀ e ∈ l, e.score ≠ FVal.nan) →
        (IndexPool.sort_by_score l).Pairwise (fun a b => scoreLe a b = true)) :=
  ⟨sort_by_score_perm l, fun h => sort_by_score_sorted_of_no_nan l h⟩

/-- Claim C2 witness on a NaN-free input. -/
theorem sort_by_score_perm_and_sorted_without_nan_witness :
    (IndexPool.sort_by_score [sampleFinEntry 1 1, sampleFinEntry 2 2]).Perm
        [sampleFinEntry 1 1, sampleFinEntry 2 2]
    ∧ (IndexPool.sort_by_score [sampleFinEntry 1 1, sampleFinEntry 2 2]).Pairwise
        (fun a b => scoreLe a b = true) :=
  ⟨(sort_by_score_perm_and_sorted_without_nan [sampleFinEntry 1 1, sampleFinEntry 2 2]).1,
   (sort_by_score_perm_and_sorted_without_nan [sampleFinEntry 1 1, sampleFinEntry 2 2]).2
     (by decide)⟩

/-- Claim C8 (amended): for a store satisfying the shard invariant
(ids strictly increasing, each id at least its position), `meta_from_id`
returns the record with the requested id whenever such a record exists
*and* the id does not exceed the store length; it returns `none` when no
record matches, and in particular whenever `id > len` — even if a record
with that id exists. -/
theorem meta_from_id_spec (l : List IndexMeta) (k : Nat)
    (hpair : l.Pairwise (fun a b => a.id < b.id)) (_hpos : idGePos l = true) :
    (∀ m ∈ l, m.id = k → k ≤ l.length → Index.meta_from_id l k = some m)
    ∧ ((∀ m ∈ l, m.id ≠ k) → Index.meta_from_id l k = none)
    ∧ (l.length < k → Index.meta_from_id l k = none) :=
  ⟨fun m hm hid hk => meta_from_id_complete l k hpair m hm hid hk,
   fun h => meta_from_id_absent l k h,
   fun h => meta_from_id_over_len l k h⟩

/-- Claim C8 witness on a two-record store. -/
theorem meta_from_id_spec_witness :
    Index.meta_from_id [sampleMeta 0 "a", sampleMeta 1 "b"] 1 = some (sampleMeta 1 "b") :=
  (meta_from_id_spec [sampleMeta 0 "a", sampleMeta 1 "b"] 1 (by decide) (by decide)).1
    (sampleMeta 1 "b") (by decide) rfl (by decide)

/-- Claim C8 counterexample: the store `[record with id 2]` satisfies the
claimed invariant and contains a record with id 2, yet `by_id 2` returns
absent because of the `id > len` guard. -/
theorem meta_from_id_existing_record_cex :
    ([sampleMetaTwo].Pairwise (fun a b => a.id < b.id))
    ∧ idGePos [sampleMetaTwo] = true
    ∧ sampleMetaTwo ∈ [sampleMetaTwo]
    ∧ sampleMetaTwo.id = 2
    ∧ Index.meta_from_id [sampleMetaTwo] 2 = none := by
  refine ⟨by decide, by decide, by decide, rfl, by decide⟩

/-- Claim C6: for every shard id below `DEFAULT_INDEX_SHARD_NUM`, if the
`.index` or the `.meta` file of that shard is absent, unreadable or fails
to deserialize, `load` returns an error (it never returns a pool missing
that shard), and `load_or_new` falls back to a fresh empty pool. -/
theorem load_missing_shard_fails (vz : Vectorizer → Nat) (mz : List IndexMeta → Nat)
    (dir : DirState) (i : Nat) (hi : i < DEFAULT_INDEX_SHARD_NUM)
    (hmiss : lookupStem dir.indexFiles i = none ∨ lookupStem dir.metaFiles i = none) :
    (∃ e, IndexPool.load vz mz dir = Except.error e)
    ∧ IndexPool.load_or_new vz mz dir = IndexPool.mkNew := by
  have herr : ∃ e, IndexPool.load vz mz dir = Except.error e := by
    unfold IndexPool.load
    cases hc : dir.corpus with
    | none => exact ⟨"No corpus file found", rfl⟩
    | some u =>
      rcases buildShards_missing vz mz dir DEFAULT_INDEX_SHARD_NUM i hi hmiss with ⟨e, he⟩
      rw [he]
      exact ⟨e, rfl⟩
  refine ⟨herr, ?_⟩
  rcases herr with ⟨e, he⟩
  unfold IndexPool.load_or_new
  rw [he]

/-- Claim C6 witness: an empty directory with a corpus file. -/
theorem load_missing_shard_fails_witness :
    (∃ e, IndexPool.load zeroVS zeroMS sampleDirEmpty = Except.error e)
    ∧ IndexPool.load_or_new zeroVS zeroMS sampleDirEmpty = IndexPool.mkNew :=
  load_missing_shard_fails zeroVS zeroMS sampleDirEmpty 0 (by decide)
    (Or.inl (by decide))

/-- Claim C3 (amended): after a successful `del_document(url)` the
vectorizer entry of the deleted document is gone, but the metadata record
is deliberately left in place (tombstone), so `meta_from_url` still
returns it — the URL stays reachable through the by-url lookup. -/
theorem del_document_tombstone_spec (pool : IndexPool) (url : String) (sid did : Nat)
    (hwf : PoolWF pool.indexes)
    (hscan : IndexPool.delScan pool.indexes url = some (sid, did)) :
    ∃ idx, pool.indexes.get? sid = some idx
      ∧ (IndexPool.del_document pool url).1 = true
      ∧ (IndexPool.del_document pool url).2.indexes.get? sid
          = some { idx with
            vectorizer := idx.vectorizer.delDoc did
            update_count := idx.update_count + 1 }
      ∧ (idx.vectorizer.delDoc did).lookup did = none
      ∧ ((IndexPool.del_document pool url).2.indexes.get? sid).map
          (fun s => (Index.meta_from_url s.meta url).isSome) = some true := by
  rcases delScan_found pool.indexes url sid did hscan with ⟨idx, m, hmem, hfnd, hsid, hdid⟩
  have hget : pool.indexes.get? sid = some idx := by
    rw [← hsid]
    exact poolWF_mem_get pool.indexes hwf idx hmem
  have hdel : IndexPool.del_document pool url =
      (true,
        { indexes := pool.indexes.set sid
            { idx with
            vectorizer := idx.vectorizer.delDoc did
            update_count := idx.update_count + 1 }
          counter := (pool.counter + (U64MOD - 1)) % U64MOD }) := by
    simp only [IndexPool.del_document, hscan, hget]
  refine ⟨idx, hget, by rw [hdel], ?_, vec_lookup_delDoc_self idx.vectorizer did, ?_⟩
  · rw [hdel]
    exact get?_set_self_of_get? pool.indexes sid idx _ hget
  · rw [hdel]
    have hg2 := get?_set_self_of_get? pool.indexes sid idx
      { idx with
            vectorizer := idx.vectorizer.delDoc did
            update_count := idx.update_count + 1 } hget
    rw [hg2]
    simp [hfnd]

/-- Claim C3 counterexample: deleting the only document succeeds, yet the
metadata store still resolves the URL afterwards (the claim says the by-url
lookup must return absent). -/
theorem del_document_meta_reachable_cex :
    (IndexPool.del_document samplePoolOne "u").1 = true
    ∧ ((IndexPool.del_document samplePoolOne "u").2.indexes.get? 0).map
        (fun s => (Index.meta_from_url s.meta "u").isSome) = some true := by
  constructor
  · rfl
  · rfl

/-- Claim C3 witness for the amended statement. -/
theorem del_document_tombstone_spec_witness :
    ∃ idx, samplePoolOne.indexes.get? 0 = some idx
      ∧ (IndexPool.del_document samplePoolOne "u").1 = true
      ∧ (IndexPool.del_document samplePoolOne "u").2.indexes.get? 0
          = some { idx with
            vectorizer := idx.vectorizer.delDoc 0
            update_count := idx.update_count + 1 }
      ∧ (idx.vectorizer.delDoc 0).lookup 0 = none
      ∧ ((IndexPool.del_document samplePoolOne "u").2.indexes.get? 0).map
          (fun s => (Index.meta_from_url s.meta "u").isSome) = some true :=
  del_document_tombstone_spec samplePoolOne "u" 0 0 (by decide) (by decide)

/-- Claim C4: deleting the same URL twice (with no re-insert in between)
returns `true` both times and decrements the wrapping pool counter twice,
because the tombstoned metadata record still matches the URL scan even
though its vectorizer entry is already gone. -/
theorem del_document_double_decrement (pool : IndexPool) (url : String) (sid did : Nat)
    (hwf : PoolWF pool.indexes)
    (hscan : IndexPool.delScan pool.indexes url = some (sid, did)) :
    (IndexPool.del_document pool url).1 = true
    ∧ (IndexPool.del_document (IndexPool.del_document pool url).2 url).1 = true
    ∧ (IndexPool.del_document (IndexPool.del_document pool url).2 url).2.counter
        = (pool.counter + 2 * (U64MOD - 1)) % U64MOD := by
  rcases delScan_found pool.indexes url sid did hscan with ⟨idx, m, hmem, hfnd, hsid, hdid⟩
  have hget : pool.indexes.get? sid = some idx := by
    rw [← hsid]
    exact poolWF_mem_get pool.indexes hwf idx hmem
  have hdel1 : IndexPool.del_document pool url =
      (true,
        { indexes := pool.indexes.set sid
            { idx with
            vectorizer := idx.vectorizer.delDoc did
            update_count := idx.update_count + 1 }
          counter := (pool.counter + (U64MOD - 1)) % U64MOD }) := by
    simp only [IndexPool.del_document, hscan, hget]
  have hproj : (pool.indexes.set sid
      { idx with
            vectorizer := idx.vectorizer.delDoc did
            update_count := idx.update_count + 1 }).map (fun s => (s.id, s.meta))
      = pool.indexes.map (fun s => (s.id, s.meta)) := by
    rw [List.map_set]
    apply set_of_get?_eq
    rw [List.get?_eq_getElem?, List.getElem?_map]
    rw [List.get?_eq_getElem?] at hget
    rw [hget]
    rfl
  have hscan2 : IndexPool.delScan (pool.indexes.set sid
      { idx with
            vectorizer := idx.vectorizer.delDoc did
            update_count := idx.update_count + 1 }) url = some (sid, did) := by
    rw [delScan_congr _ pool.indexes url hproj]
    exact hscan
  have hget2 := get?_set_self_of_get? pool.indexes sid idx
    { idx with
            vectorizer := idx.vectorizer.delDoc did
            update_count := idx.update_count + 1 } hget
  refine ⟨by rw [hdel1], ?_, ?_⟩
  · rw [hdel1]
    simp only [IndexPool.del_document, hscan2, hget2]
  · rw [hdel1]
    simp only [IndexPool.del_document, hscan2, hget2]
    show ((pool.counter + (U64MOD - 1)) % U64MOD + (U64MOD - 1)) % U64MOD
      = (pool.counter + 2 * (U64MOD - 1)) % U64MOD
    rw [Nat.mod_add_mod]
    have harith : pool.counter + (U64MOD - 1) + (U64MOD - 1)
        = pool.counter + 2 * (U64MOD - 1) := by omega
    rw [harith]

/-- Claim C4 witness: the concrete one-document pool. -/
theorem del_document_double_decrement_witness :
    (IndexPool.del_document samplePoolOne "u").1 = true
    ∧ (IndexPool.del_document (IndexPool.del_document samplePoolOne "u").2 "u").1 = true
    ∧ (IndexPool.del_document (IndexPool.del_document samplePoolOne "u").2 "u").2.counter
        = (samplePoolOne.counter + 2 * (U64MOD - 1)) % U64MOD :=
  del_document_double_decrement samplePoolOne "u" 0 0 (by decide) (by decide)

/-- Claim C1 counterexample: with two fresh shards of cached sizes 5 and 3,
the new document is routed to shard 1 (the last scanned) although shard 0
has the strictly largest `max(vectorizer_bin_size, meta_bin_size)`. -/
theorem add_document_largest_shard_cex :
    IndexPool.routeScan samplePoolTwoSizes.indexes "u" = (true, 1, 0)
    ∧ max (sampleShard 0 5 5 []).vectorizer_bin_size (sampleShard 0 5 5 []).meta_bin_size
        > max (sampleShard 1 3 3 []).vectorizer_bin_size (sampleShard 1 3 3 []).meta_bin_size
    ∧ (IndexPool.add_document zeroVS zeroMS samplePoolTwoSizes sampleTF (sampleMeta 0 "u")).map
        (fun o => ((o.pool.indexes.get? 0).map (fun s => s.meta.length),
                   (o.pool.indexes.get? 1).map (fun s => s.meta.length)))
      = some (some 0, some 1) := by
  refine ⟨by decide, by decide, by decide⟩

/-- Claim C1 (amended): for an insertion of a URL not present in any shard,
the routing scan never updates its size tracker (`max_size = max_size`) and
uses a `<=` comparison, so every scanned shard overwrites the target and
`add_document` routes the new document to the shard scanned last in id
order (the highest shard id), regardless of the cached bin sizes. -/
theorem add_document_routes_to_last_scanned_shard (vz : Vectorizer → Nat)
    (mz : List IndexMeta → Nat) (pool : IndexPool) (tf : TokenFrequency)
    (meta0 : IndexMeta) (hwf : PoolWF pool.indexes) (hne : pool.indexes ≠ [])
    (hfresh : ∀ s ∈ pool.indexes, Index.meta_from_url s.meta meta0.url = none) :
    IndexPool.routeScan pool.indexes meta0.url = (true, pool.indexes.length - 1, 0)
    ∧ ∃ o idxLast,
        IndexPool.add_document vz mz pool tf meta0 = some o
        ∧ o.is_new = true
        ∧ pool.indexes.get? (pool.indexes.length - 1) = some idxLast
        ∧ (o.pool.indexes.get? (pool.indexes.length - 1)).map
            (fun s => s.meta.map (fun mm => mm.url))
          = some (idxLast.meta.map (fun mm => mm.url) ++ [meta0.url]) := by
  have hlen0 : pool.indexes.length ≠ 0 := by
    intro h
    exact hne (List.eq_nil_of_length_eq_zero h)
  have hlast := routeScanAux_fresh meta0.url pool.indexes hfresh hne 0 0
  have hgetlast : pool.indexes.get? (pool.indexes.length - 1)
      = some (pool.indexes.getLast hne) := by
    rw [List.get?_eq_getElem?]
    apply List.getElem?_eq_some_iff.mpr
    refine ⟨by omega, ?_⟩
    rw [List.getLast_eq_getElem]
  have hlastid : (pool.indexes.getLast hne).id = pool.indexes.length - 1 :=
    poolWF_get_id pool.indexes hwf _ _ hgetlast
  have hroute : IndexPool.routeScan pool.indexes meta0.url
      = (true, pool.indexes.length - 1, 0) := by
    unfold IndexPool.routeScan
    rw [hlast, hlastid]
  refine ⟨hroute, ?_⟩
  have hadd : IndexPool.add_document vz mz pool tf meta0 = some
      { is_new := true
        pool :=
          { indexes := pool.indexes.set (pool.indexes.length - 1)
              (applySizeRefresh vz mz
                ((pool.indexes.getLast hne).update_count % SAVE_FILE_INTERVAL == 0)
                ((pool.indexes.getLast hne).update_count % CALCULATE_BIN_SIZE_INTERVAL == 0)
                { pool.indexes.getLast hne with
                  vectorizer := (pool.indexes.getLast hne).vectorizer.addDoc
                    (Index.generate_next_id (pool.indexes.getLast hne).meta) tf
                  meta := (pool.indexes.getLast hne).meta ++
                    [{ meta0 with id := Index.generate_next_id (pool.indexes.getLast hne).meta }]
                  update_count := (pool.indexes.getLast hne).update_count + 1 })
            counter := (pool.counter + 1) % U64MOD }
        did_save := (pool.indexes.getLast hne).update_count % SAVE_FILE_INTERVAL == 0
        did_calc_only :=
          !((pool.indexes.getLast hne).update_count % SAVE_FILE_INTERVAL == 0)
          && ((pool.indexes.getLast hne).update_count % CALCULATE_BIN_SIZE_INTERVAL == 0) } := by
    simp only [IndexPool.add_document, hroute, hgetlast]
    rw [if_pos trivial]
  refine ⟨_, pool.indexes.getLast hne, hadd, rfl, hgetlast, ?_⟩
  have hset := get?_set_self_of_get? pool.indexes (pool.indexes.length - 1)
    (pool.indexes.getLast hne)
    (applySizeRefresh vz mz
      ((pool.indexes.getLast hne).update_count % SAVE_FILE_INTERVAL == 0)
      ((pool.indexes.getLast hne).update_count % CALCULATE_BIN_SIZE_INTERVAL == 0)
      { pool.indexes.getLast hne with
        vectorizer := (pool.indexes.getLast hne).vectorizer.addDoc
          (Index.generate_next_id (pool.indexes.getLast hne).meta) tf
        meta := (pool.indexes.getLast hne).meta ++
          [{ meta0 with id := Index.generate_next_id (pool.indexes.getLast hne).meta }]
        update_count := (pool.indexes.getLast hne).update_count + 1 }) hgetlast
  rw [hset]
  simp [applySizeRefresh_meta]

/-- Claim C1 witness for the amended statement: two fresh shards. -/
theorem add_document_routes_to_last_scanned_shard_witness :
    IndexPool.routeScan samplePoolTwoSizes.indexes "u" = (true, 1, 0)
    ∧ ∃ o idxLast,
        IndexPool.add_document zeroVS zeroMS samplePoolTwoSizes sampleTF (sampleMeta 7 "u")
          = some o
        ∧ o.is_new = true
        ∧ samplePoolTwoSizes.indexes.get? 1 = some idxLast
        ∧ (o.pool.indexes.get? 1).map (fun s => s.meta.map (fun mm => mm.url))
          = some (idxLast.meta.map (fun mm => mm.url) ++ ["u"]) :=
  add_document_routes_to_last_scanned_shard zeroVS zeroMS samplePoolTwoSizes sampleTF
    (sampleMeta 7 "u") (by decide) (by decide) (by decide)

/-- Claim C5 counterexample: the very first insertion into a fresh shard
(`update_count = 0` before the mutation) persists the shard, although the
post-mutation `update_count` is `1` and `1 % 100 ≠ 0`: the source reads the
counter *before* incrementing it. -/
theorem add_document_save_interval_cex :
    (IndexPool.add_document zeroVS zeroMS samplePoolFresh sampleTF (sampleMeta 0 "u")).map
        (fun o => (o.did_save, (o.pool.indexes.get? 0).map (fun s => s.update_count)))
      = some (true, some 1)
    ∧ ((1 % SAVE_FILE_INTERVAL == 0) = false) := by
  refine ⟨by decide, by decide⟩

/-- Claim C5 (amended): for every mutation performed by `add_document`
(insert or update), the shard is persisted to disk exactly when the
`update_count` captured *before* the increment satisfies
`update_count % SAVE_FILE_INTERVAL == 0` (with `SAVE_FILE_INTERVAL = 100`);
otherwise bin sizes are recomputed without writing exactly when that same
pre-increment count satisfies `update_count % CALCULATE_BIN_SIZE_INTERVAL == 0`
(with `CALCULATE_BIN_SIZE_INTERVAL = 20`); the stored count afterwards is
the pre-increment count plus one. -/
theorem add_document_persistence_pre_count (vz : Vectorizer → Nat)
    (mz : List IndexMeta → Nat) (pool : IndexPool) (tf : TokenFrequency)
    (meta0 : IndexMeta) (idx : Index)
    (hidx : pool.indexes.get? (IndexPool.routeScan pool.indexes meta0.url).2.1 = some idx) :
    ∃ o, IndexPool.add_document vz mz pool tf meta0 = some o
      ∧ o.did_save = (idx.update_count % SAVE_FILE_INTERVAL == 0)
      ∧ o.did_calc_only = (!(idx.update_count % SAVE_FILE_INTERVAL == 0)
          && (idx.update_count % CALCULATE_BIN_SIZE_INTERVAL == 0))
      ∧ (o.pool.indexes.get? (IndexPool.routeScan pool.indexes meta0.url).2.1).map
          (fun s => s.update_count) = some (idx.update_count + 1) := by
  rcases hscan : IndexPool.routeScan pool.indexes meta0.url with ⟨isnew, sid, did⟩
  rw [hscan] at hidx
  simp only [hscan]
  cases isnew with
  | false =>
    have hadd : IndexPool.add_document vz mz pool tf meta0 = some
        { is_new := false
          pool :=
            { indexes := pool.indexes.set sid
                (applySizeRefresh vz mz
                  (idx.update_count % SAVE_FILE_INTERVAL == 0)
                  (idx.update_count % CALCULATE_BIN_SIZE_INTERVAL == 0)
                  { idx with
                    vectorizer := (idx.vectorizer.delDoc did).addDoc did tf
                    meta := Index.meta_from_id_mut_apply idx.meta did (overwriteFields meta0)
                    update_count := idx.update_count + 1 })
              counter := pool.counter }
          did_save := idx.update_count % SAVE_FILE_INTERVAL == 0
          did_calc_only := !(idx.update_count % SAVE_FILE_INTERVAL == 0)
            && (idx.update_count % CALCULATE_BIN_SIZE_INTERVAL == 0) } := by
      simp only [IndexPool.add_document, hscan, hidx]
      rw [if_neg (by simp)]
    refine ⟨_, hadd, rfl, rfl, ?_⟩
    have hset := get?_set_self_of_get? pool.indexes sid idx
      (applySizeRefresh vz mz
        (idx.update_count % SAVE_FILE_INTERVAL == 0)
        (idx.update_count % CALCULATE_BIN_SIZE_INTERVAL == 0)
        { idx with
          vectorizer := (idx.vectorizer.delDoc did).addDoc did tf
          meta := Index.meta_from_id_mut_apply idx.meta did (overwriteFields meta0)
          update_count := idx.update_count + 1 }) hidx
    rw [hset]
    simp [applySizeRefresh_update_count]
  | true =>
    have hadd : IndexPool.add_document vz mz pool tf meta0 = some
        { is_new := true
          pool :=
            { indexes := pool.indexes.set sid
                (applySizeRefresh vz mz
                  (idx.update_count % SAVE_FILE_INTERVAL == 0)
                  (idx.update_count % CALCULATE_BIN_SIZE_INTERVAL == 0)
                  { idx with
                    vectorizer := idx.vectorizer.addDoc (Index.generate_next_id idx.meta) tf
                    meta := idx.meta ++ [{ meta0 with id := Index.generate_next_id idx.meta }]
                    update_count := idx.update_count + 1 })
              counter := (pool.counter + 1) % U64MOD }
          did_save := idx.update_count % SAVE_FILE_INTERVAL == 0
          did_calc_only := !(idx.update_count % SAVE_FILE_INTERVAL == 0)
            && (idx.update_count % CALCULATE_BIN_SIZE_INTERVAL == 0) } := by
      simp only [IndexPool.add_document, hscan, hidx]
      rw [if_pos trivial]
    refine ⟨_, hadd, rfl, rfl, ?_⟩
    have hset := get?_set_self_of_get? pool.indexes sid idx
      (applySizeRefresh vz mz
        (idx.update_count % SAVE_FILE_INTERVAL == 0)
        (idx.update_count % CALCULATE_BIN_SIZE_INTERVAL == 0)
        { idx with
          vectorizer := idx.vectorizer.addDoc (Index.generate_next_id idx.meta) tf
          meta := idx.meta ++ [{ meta0 with id := Index.generate_next_id idx.meta }]
          update_count := idx.update_count + 1 }) hidx
    rw [hset]
    simp [applySizeRefresh_update_count]

/-- Claim C5 witness: the fresh single-shard pool. -/
theorem add_document_persistence_pre_count_witness :
    ∃ o, IndexPool.add_document zeroVS zeroMS samplePoolFresh sampleTF (sampleMeta 0 "u")
        = some o
      ∧ o.did_save = ((Index.mkNew 0).update_count % SAVE_FILE_INTERVAL == 0)
      ∧ o.did_calc_only = (!((Index.mkNew 0).update_count % SAVE_FILE_INTERVAL == 0)
          && ((Index.mkNew 0).update_count % CALCULATE_BIN_SIZE_INTERVAL == 0))
      ∧ (o.pool.indexes.get?
            (IndexPool.routeScan samplePoolFresh.indexes (sampleMeta 0 "u").url).2.1).map
          (fun s => s.update_count) = some ((Index.mkNew 0).update_count + 1) :=
  add_document_persistence_pre_count zeroVS zeroMS samplePoolFresh sampleTF
    (sampleMeta 0 "u") (Index.mkNew 0) (by decide)

/-- Claim C7: when `add_document` is called with a URL that already exists
in a shard (of a well-formed pool with canonically numbered metadata), the
stored record keeps its document id while url, title, favicon, tags,
description, points and timestamp are overwritten with the new values, the
vectorizer entry for that id is replaced by the new token frequencies, and
the pool counter is not incremented. -/
theorem add_document_update_preserves_id (vz : Vectorizer → Nat)
    (mz : List IndexMeta → Nat) (pool : IndexPool) (tf : TokenFrequency)
    (meta0 : IndexMeta) (sid did : Nat)
    (hwf : PoolWF pool.indexes)
    (hscan : IndexPool.routeScan pool.indexes meta0.url = (false, sid, did))
    (hcanon : ∀ s ∈ pool.indexes, MetaIdsCanonical s.meta) :
    ∃ o idx m1,
      IndexPool.add_document vz mz pool tf meta0 = some o
      ∧ o.is_new = false
      ∧ o.pool.counter = pool.counter
      ∧ pool.indexes.get? sid = some idx
      ∧ idx.meta.get? did = some m1
      ∧ m1.id = did
      ∧ (o.pool.indexes.get? sid).map (fun s => s.meta)
          = some (idx.meta.set did (overwriteFields meta0 m1))
      ∧ (overwriteFields meta0 m1).id = did
      ∧ (overwriteFields meta0 m1).url = meta0.url
      ∧ (overwriteFields meta0 m1).title = meta0.title
      ∧ (overwriteFields meta0 m1).favicon = meta0.favicon
      ∧ (overwriteFields meta0 m1).tags = meta0.tags
      ∧ (overwriteFields meta0 m1).description = meta0.description
      ∧ (overwriteFields meta0 m1).points = meta0.points
      ∧ (overwriteFields meta0 m1).time = meta0.time
      ∧ (o.pool.indexes.get? sid).map (fun s => s.vectorizer.lookup did)
          = some (some tf) := by
  have hauxfound : ∃ idx m, idx ∈ pool.indexes
      ∧ Index.meta_from_url idx.meta meta0.url = some m
      ∧ idx.id = sid ∧ m.id = did := by
    unfold IndexPool.routeScan at hscan
    exact routeScanAux_found meta0.url pool.indexes 0 0 0 sid did hscan
  rcases hauxfound with ⟨idx, m, hmem, hfnd, hsid, hdid⟩
  have hget : pool.indexes.get? sid = some idx := by
    rw [← hsid]
    exact poolWF_mem_get pool.indexes hwf idx hmem
  have hc : MetaIdsCanonical idx.meta := hcanon idx hmem
  have hmmem : m ∈ idx.meta := by
    unfold Index.meta_from_url at hfnd
    exact List.mem_of_find?_eq_some hfnd
  have hmget : idx.meta.get? did = some m := by
    rw [← hdid]
    exact canonical_mem_get idx.meta hc m hmmem
  have hmut := meta_from_id_mut_apply_set idx.meta did (overwriteFields meta0) hc m hmget
  have hadd : IndexPool.add_document vz mz pool tf meta0 = some
      { is_new := false
        pool :=
          { indexes := pool.indexes.set sid
              (applySizeRefresh vz mz
                (idx.update_count % SAVE_FILE_INTERVAL == 0)
                (idx.update_count % CALCULATE_BIN_SIZE_INTERVAL == 0)
                { idx with
                  vectorizer := (idx.vectorizer.delDoc did).addDoc did tf
                  meta := Index.meta_from_id_mut_apply idx.meta did (overwriteFields meta0)
                  update_count := idx.update_count + 1 })
            counter := pool.counter }
        did_save := idx.update_count % SAVE_FILE_INTERVAL == 0
        did_calc_only := !(idx.update_count % SAVE_FILE_INTERVAL == 0)
          && (idx.update_count % CALCULATE_BIN_SIZE_INTERVAL == 0) } := by
    simp only [IndexPool.add_document, hscan, hget]
    rw [if_neg (by simp)]
  have hset := get?_set_self_of_get? pool.indexes sid idx
    (applySizeRefresh vz mz
      (idx.update_count % SAVE_FILE_INTERVAL == 0)
      (idx.update_count % CALCULATE_BIN_SIZE_INTERVAL == 0)
      { idx with
        vectorizer := (idx.vectorizer.delDoc did).addDoc did tf
        meta := Index.meta_from_id_mut_apply idx.meta did (overwriteFields meta0)
        update_count := idx.update_count + 1 }) hget
  refine ⟨_, idx, m, hadd, rfl, rfl, hget, hmget, hdid, ?_, ?_, rfl, rfl, rfl, rfl, rfl,
    rfl, rfl, ?_⟩
  · rw [hset]
    rw [Option.map_some']
    rw [applySizeRefresh_meta]
    rw [hmut]
  · unfold overwriteFields
    exact hdid
  · rw [hset]
    rw [Option.map_some']
    rw [applySizeRefresh_vectorizer]
    rw [vec_lookup_delDoc_addDoc_self]

/-- Claim C7 witness: updating the single document of a one-shard pool. -/
theorem add_document_update_preserves_id_witness :
    ∃ o idx m1,
      IndexPool.add_document zeroVS zeroMS samplePoolOne sampleTF sampleMetaNew = some o
      ∧ o.is_new = false
      ∧ o.pool.counter = samplePoolOne.counter
      ∧ samplePoolOne.indexes.get? 0 = some idx
      ∧ idx.meta.get? 0 = some m1
      ∧ m1.id = 0
      ∧ (o.pool.indexes.get? 0).map (fun s => s.meta)
          = some (idx.meta.set 0 (overwriteFields sampleMetaNew m1))
      ∧ (overwriteFields sampleMetaNew m1).id = 0
      ∧ (overwriteFields sampleMetaNew m1).url = sampleMetaNew.url
      ∧ (overwriteFields sampleMetaNew m1).title = sampleMetaNew.title
      ∧ (overwriteFields sampleMetaNew m1).favicon = sampleMetaNew.favicon
      ∧ (overwriteFields sampleMetaNew m1).tags = sampleMetaNew.tags
      ∧ (overwriteFields sampleMetaNew m1).description = sampleMetaNew.description
      ∧ (overwriteFields sampleMetaNew m1).points = sampleMetaNew.points
      ∧ (overwriteFields sampleMetaNew m1).time = sampleMetaNew.time
      ∧ (o.pool.indexes.get? 0).map (fun s => s.vectorizer.lookup 0)
          = some (some sampleTF) :=
  add_document_update_preserves_id zeroVS zeroMS samplePoolOne sampleTF sampleMetaNew 0 0
    (by decide) (by decide) (by decide)
